import Mathlib

/-!
Shallow embedding of `flarestack/data/__init__.py` and
`flarestack/utils/neutrino_cosmology.py`.

Conventions of the embedding:
* numpy record arrays become `List` of structures over `ℚ`;
* the numpy global random state becomes an explicit `Nat` seed threaded
  through the operations; `np.random.uniform` and `np.random.shuffle` are
  modelled by a concrete linear congruential generator, keeping their
  contracts (draws land in `[lo, hi)`; shuffling permutes the list);
* since the development is over `ℚ`, the real constant `2 * np.pi` used by
  `Season.pseudo_background` is modelled by a positive rational parameter
  `tau`;
* Python exceptions become `Except Err`; mutation of `self` becomes
  returning an updated structure.
-/

namespace Flarestack

/-- Errors raised by the modelled code (Python raises `Exception` /
`ValueError`; the constructor records the datum the message names). -/
inductive Err where
  | unrecognisedVersion (version : String)
  | unrecognisedSeason (name : String)
  | unrecognisedTimePdf (name : String)
  | incompatibleTimePdf
  | fitNotRecognised (fit : String)
  | emptyData
deriving DecidableEq, Repr

/-- One event of an experimental table: the reconstructed-quantity schema
(right ascension, declination, angular error, energy proxy, arrival time). -/
structure Event where
  ra : ℚ
  dec : ℚ
  sigma : ℚ
  logE : ℚ
  time : ℚ
deriving DecidableEq, Repr

/-- A background-model event: an experimental event with the `weight` field
appended by `Season.get_background_model`. -/
structure BgEvent where
  ev : Event
  weight : ℚ
deriving DecidableEq, Repr

/-! ### Random number generator model

`np.random` is external to the repository; it is modelled by a linear
congruential generator on a `Nat` state. -/

/-- One step of the generator state (numerical-recipes LCG constants,
reduced mod 2^32). -/
def lcg (s : Nat) : Nat := (1664525 * s + 1013904223) % 4294967296

/-- A draw in the unit interval `[0, 1)` from state `s`. -/
def unitDraw (s : Nat) : ℚ := (lcg s : ℚ) / 4294967296

/-- Models `np.random.uniform(lo, hi, size=n)`: a list of `n` draws in
`[lo, hi)` together with the advanced generator state. -/
def uniformList (lo hi : ℚ) : Nat → Nat → List ℚ × Nat
  | g, 0 => ([], g)
  | g, n + 1 =>
    let x := lo + (hi - lo) * unitDraw g
    let (rest, gEnd) := uniformList lo hi (lcg g) n
    (x :: rest, gEnd)

/-- Models `np.random.shuffle`: a seed-determined permutation of the list,
repeatedly extracting the element at index `g % length`. -/
def shuffle (g : Nat) : List α → List α
  | [] => []
  | x :: xs =>
    let l := x :: xs
    let i := g % l.length
    l.getD i x :: shuffle (lcg g) (l.eraseIdx i)
termination_by l => l.length
decreasing_by
  simp only [List.length_eraseIdx]
  have hi : g % (x :: xs).length < (x :: xs).length :=
    Nat.mod_lt _ (by simp)
  simp only [hi, if_pos]
  omega

theorem lcg_lt (s : Nat) : lcg s < 4294967296 :=
  Nat.mod_lt _ (by norm_num)

theorem unitDraw_nonneg (s : Nat) : 0 ≤ unitDraw s := by
  unfold unitDraw
  positivity

theorem unitDraw_lt_one (s : Nat) : unitDraw s < 1 := by
  unfold unitDraw
  rw [div_lt_one (by norm_num)]
  exact_mod_cast lcg_lt s

theorem uniformList_length (lo hi : ℚ) (g n : Nat) :
    (uniformList lo hi g n).1.length = n := by
  induction n generalizing g with
  | zero => rfl
  | succ n ih => simp [uniformList, ih]

theorem uniformList_mem_range (lo hi : ℚ) (hlt : lo < hi) (g n : Nat) :
    ∀ x ∈ (uniformList lo hi g n).1, lo ≤ x ∧ x < hi := by
  induction n generalizing g with
  | zero => intro x hx; simp [uniformList] at hx
  | succ n ih =>
    intro x hx
    simp only [uniformList, List.mem_cons] at hx
    rcases hx with hx | hx
    · subst hx
      constructor
      · have h1 : 0 ≤ (hi - lo) * unitDraw g :=
          mul_nonneg (by linarith) (unitDraw_nonneg g)
        linarith
      · have h2 : (hi - lo) * unitDraw g < (hi - lo) * 1 :=
          mul_lt_mul_of_pos_left (unitDraw_lt_one g) (by linarith)
        linarith
    · exact ih (lcg g) x hx

theorem cons_getElem_eraseIdx_perm (l : List α) (i : Nat) (h : i < l.length) :
    (l.get ⟨i, h⟩ :: l.eraseIdx i).Perm l := by
  induction l generalizing i with
  | nil => simp at h
  | cons a t ih =>
    cases i with
    | zero => simp
    | succ i =>
      have ht : i < t.length := by simpa using h
      have step := (ih i ht).cons a
      have h0 : ((a :: t).get ⟨i + 1, h⟩ :: (a :: t).eraseIdx (i + 1))
          = t.get ⟨i, ht⟩ :: a :: t.eraseIdx i := by simp [List.eraseIdx]
      rw [h0]
      exact (List.Perm.swap a _ _).trans step

theorem shuffle_perm_aux (n : Nat) :
    ∀ (g : Nat) (l : List α), l.length ≤ n → (shuffle g l).Perm l := by
  induction n with
  | zero =>
    intro g l hl
    have : l = [] := List.length_eq_zero.mp (Nat.le_zero.mp hl)
    subst this
    simp [shuffle]
  | succ n ih =>
    intro g l hl
    match l with
    | [] => simp [shuffle]
    | x :: xs =>
      rw [shuffle]
      have hi : g % (x :: xs).length < (x :: xs).length :=
        Nat.mod_lt _ (by simp)
      have hget : (x :: xs).getD (g % (x :: xs).length) x
          = (x :: xs).get ⟨g % (x :: xs).length, hi⟩ := by
        rw [List.getD_eq_getElem _ _ hi]
        rfl
      have hlen : ((x :: xs).eraseIdx (g % (x :: xs).length)).length ≤ n := by
        simp only [List.length_eraseIdx, hi, if_pos]
        simp only [List.length_cons] at hl ⊢
        omega
      have hrec := ih (lcg g) ((x :: xs).eraseIdx (g % (x :: xs).length)) hlen
      refine (hrec.cons ((x :: xs).getD (g % (x :: xs).length) x)).trans ?_
      rw [hget]
      exact cons_getElem_eraseIdx_perm _ _ hi

theorem shuffle_perm (g : Nat) (l : List α) : (shuffle g l).Perm l :=
  shuffle_perm_aux l.length g l le_rfl

/-! ### Time PDFs

`flarestack/core/time_pdf.py` is imported by `flarestack/data/__init__.py`
but its code is not in the excerpt. -/

/-- Modelled from the spec: the `TimePDF` variants of
`flarestack/core/time_pdf.py` (not in the excerpt). The spec names the
variants Steady, FixedWindowBox (`box`), FixedReferenceBox
(`fixed_ref_box`), OnOffList (`on_off_list`); `data/__init__.py` also
imports and uses `FixedEndBox` (`fixed_end_box`). Parameters of the
variants are not modelled as no verified property depends on them. -/
inductive TimePDF where
  | steady
  | box
  | fixedRefBox
  | fixedEndBox
  | onOffList
deriving DecidableEq, Repr

/-- A time-PDF configuration dictionary (the keys used by
`data/__init__.py` and the spec's configuration surface). -/
structure TimePdfDict where
  time_pdf_name : String
  start_time_mjd : Option ℚ := none
  end_time_mjd : Option ℚ := none
  pre_window : Option ℚ := none
  post_window : Option ℚ := none
  fixed_ref_time_mjd : Option ℚ := none
deriving DecidableEq, Repr

/-- Modelled from the spec: `TimePDF.create` dispatches on
`time_pdf_name` to the variant of that name; an unrecognised name fails
with an error naming the key. -/
def TimePDF.create (d : TimePdfDict) : Except Err TimePDF :=
  match d.time_pdf_name with
  | "steady" => .ok .steady
  | "box" => .ok .box
  | "fixed_ref_box" => .ok .fixedRefBox
  | "fixed_end_box" => .ok .fixedEndBox
  | "on_off_list" => .ok .onOffList
  | name => .error (.unrecognisedTimePdf name)

/-- Membership in `compatible_time_pdfs = [FixedEndBox, FixedRefBox,
OnOffList]` tested by `Season.build_time_pdf` via `isinstance`. -/
def TimePDF.isCompatibleBackground : TimePDF → Bool
  | .fixedEndBox => true
  | .fixedRefBox => true
  | .onOffList => true
  | _ => false

/-! ### Python `min` / `max` of a nonempty sequence -/

/-- Models the Python builtin `min` over a sequence (`None` when empty,
where Python raises). -/
def pyMin : List ℚ → Option ℚ
  | [] => none
  | x :: xs => some (xs.foldl min x)

/-- Models the Python builtin `max` over a sequence. -/
def pyMax : List ℚ → Option ℚ
  | [] => none
  | x :: xs => some (xs.foldl max x)

theorem foldl_min_le_init (xs : List ℚ) (a : ℚ) : xs.foldl min a ≤ a := by
  induction xs generalizing a with
  | nil => simp
  | cons x xs ih => exact le_trans (ih (min a x)) (min_le_left a x)

theorem foldl_min_le_mem (xs : List ℚ) (a : ℚ) :
    ∀ y ∈ xs, xs.foldl min a ≤ y := by
  induction xs generalizing a with
  | nil => simp
  | cons x xs ih =>
    intro y hy
    rcases List.mem_cons.mp hy with h | h
    · subst h
      exact le_trans (foldl_min_le_init xs (min a y)) (min_le_right a y)
    · exact ih (min a x) y h

theorem foldl_min_mem (xs : List ℚ) (a : ℚ) :
    xs.foldl min a = a ∨ xs.foldl min a ∈ xs := by
  induction xs generalizing a with
  | nil => simp
  | cons x xs ih =>
    rcases ih (min a x) with h | h
    · rcases min_choice a x with hm | hm
      · left; simp only [List.foldl_cons]; rw [h, hm]
      · right; simp only [List.foldl_cons]; rw [h, hm]; exact List.mem_cons_self x xs
    · right
      exact List.mem_cons_of_mem x h

theorem foldl_max_init_le (xs : List ℚ) (a : ℚ) : a ≤ xs.foldl max a := by
  induction xs generalizing a with
  | nil => simp
  | cons x xs ih => exact le_trans (le_max_left a x) (ih (max a x))

theorem foldl_max_mem_le (xs : List ℚ) (a : ℚ) :
    ∀ y ∈ xs, y ≤ xs.foldl max a := by
  induction xs generalizing a with
  | nil => simp
  | cons x xs ih =>
    intro y hy
    rcases List.mem_cons.mp hy with h | h
    · subst h
      exact le_trans (le_max_right a y) (foldl_max_init_le xs (max a y))
    · exact ih (max a x) y h

theorem foldl_max_mem (xs : List ℚ) (a : ℚ) :
    xs.foldl max a = a ∨ xs.foldl max a ∈ xs := by
  induction xs generalizing a with
  | nil => simp
  | cons x xs ih =>
    rcases ih (max a x) with h | h
    · rcases max_choice a x with hm | hm
      · left; simp only [List.foldl_cons]; rw [h, hm]
      · right; simp only [List.foldl_cons]; rw [h, hm]; exact List.mem_cons_self x xs
    · right
      exact List.mem_cons_of_mem x h

/-! ### Season (`flarestack/data/__init__.py`, class `Season`) -/

/-- The `Season` class. File I/O is external: `exp_data` stands for the
table `np.load(self.exp_path)` returns, so `get_exp_data` reads it
directly. Subclasses outside the excerpt override `build_time_pdf_dict`;
that override is modelled by the optional stored dictionary
`t_pdf_dict_override`. -/
structure Season where
  season_name : String
  sample_name : String
  exp_data : List Event
  loaded_background : Option (List BgEvent) := none
  time_pdf : Option TimePDF := none
  t_pdf_dict_override : Option TimePdfDict := none
deriving DecidableEq, Repr

/-- `Season.get_exp_data`: load the experimental table. -/
def Season.get_exp_data (s : Season) : List Event := s.exp_data

/-- `Season.get_background_model`: the experimental data with a `weight`
column of ones appended. -/
def Season.get_background_model (s : Season) : List BgEvent :=
  s.get_exp_data.map (fun e => { ev := e, weight := 1 })

/-- `Season.load_background_model`: store the background model on the
season (mutation of `self` becomes an updated structure). -/
def Season.load_background_model (s : Season) : Season :=
  { s with loaded_background := some s.get_background_model }

/-- `data['ra'] = np.random.uniform(0, 2 * np.pi, size=len(data))`:
overwrite the right-ascension column with the given draws. -/
def assignRA (bg : List BgEvent) (ras : List ℚ) : List BgEvent :=
  List.zipWith (fun b r => { b with ev := { b.ev with ra := r } }) bg ras

/-- `np.random.shuffle(data["time"])` writes the shuffled time column back
into the records by position. -/
def assignTimes (bg : List BgEvent) (ts : List ℚ) : List BgEvent :=
  List.zipWith (fun b t => { b with ev := { b.ev with time := t } }) bg ts

/-- `Season.pseudo_background`, with `tau` standing for `2 * np.pi` and
`g` for the `np.random` state: loads the background model if it is not
loaded, copies it, overwrites `ra` with uniform draws, shuffles the time
column, and returns the scrambled table restricted to the experimental
dtype (dropping `weight`), together with the (possibly updated) season. -/
def Season.pseudo_background (tau : ℚ) (g : Nat) (s : Season) :
    List Event × Season :=
  let s1 := if s.loaded_background.isSome then s else s.load_background_model
  let bg := s1.loaded_background.getD []
  let draws := uniformList 0 tau g bg.length
  let d1 := assignRA bg draws.1
  let d2 := assignTimes d1 (shuffle draws.2 (d1.map (fun b => b.ev.time)))
  (d2.map BgEvent.ev, s1)

/-- `Season.build_time_pdf_dict`: default dictionary spanning from the
first to the last event of the experimental data, unless a subclass
overrides it. Python's `min`/`max` raise on an empty sequence. -/
def Season.build_time_pdf_dict (s : Season) : Except Err TimePdfDict :=
  match s.t_pdf_dict_override with
  | some d => .ok d
  | none =>
    match pyMin (s.exp_data.map Event.time), pyMax (s.exp_data.map Event.time) with
    | some t0, some t1 =>
      .ok { time_pdf_name := "fixed_end_box",
            start_time_mjd := some t0, end_time_mjd := some t1 }
    | _, _ => .error .emptyData

/-- `Season.build_time_pdf`: create the time PDF from the dictionary and
raise a `ValueError` unless it is one of the allowed classes
(`FixedEndBox`, `FixedRefBox`, `OnOffList`). -/
def Season.build_time_pdf (s : Season) : Except Err TimePDF :=
  match s.build_time_pdf_dict with
  | .error e => .error e
  | .ok d =>
    match TimePDF.create d with
    | .error e => .error e
    | .ok p =>
      if p.isCompatibleBackground then .ok p else .error .incompatibleTimePdf

/-- `Season.get_time_pdf`: build the time PDF on first use and cache it. -/
def Season.get_time_pdf (s : Season) : Except Err (TimePDF × Season) :=
  match s.time_pdf with
  | some p => .ok (p, s)
  | none =>
    match s.build_time_pdf with
    | .error e => .error e
    | .ok p => .ok (p, { s with time_pdf := some p })

/-- `Season.clean_season_cache`: reset the cached time PDF. -/
def Season.clean_season_cache (s : Season) : Season :=
  { s with time_pdf := none }

/-! ### Season subclasses and injectors -/

/-- `SeasonWithMC`: a season that additionally carries a Monte-Carlo
sample path. -/
structure SeasonWithMC where
  toSeason : Season
  mc_path : String
deriving DecidableEq, Repr

/-- `SeasonWithoutMC`: a season that instead carries a pseudo-MC
effective-area parametrisation path. -/
structure SeasonWithoutMC where
  toSeason : Season
  pseudo_mc_path : String
deriving DecidableEq, Repr

/-- Modelled from the spec: `MCInjector` / `EffectiveAreaInjector` of
`flarestack/core/injector.py` (not in the excerpt) as a tagged variant
recording which strategy `create` was called with, the season it was
built on and the source catalogue, for an abstract catalogue type `C`. -/
inductive Injector (C : Type) where
  | mcInjector (season : Season) (sources : C)
  | effectiveAreaInjector (season : Season) (sources : C)
deriving DecidableEq, Repr

/-- Whether the injector is an `MCInjector`. -/
def Injector.isMC : Injector C → Bool
  | .mcInjector _ _ => true
  | .effectiveAreaInjector _ _ => false

/-- `SeasonWithMC.make_injector`: `MCInjector.create(self, sources)`. -/
def SeasonWithMC.make_injector (s : SeasonWithMC) (sources : C) : Injector C :=
  .mcInjector s.toSeason sources

/-- `SeasonWithoutMC.make_injector`:
`EffectiveAreaInjector.create(self, sources)`. -/
def SeasonWithoutMC.make_injector (s : SeasonWithoutMC) (sources : C) :
    Injector C :=
  .effectiveAreaInjector s.toSeason sources

/-! ### Dataset and DatasetHolder -/

/-- Lookup in an association list, modelling Python `dict` access keyed
by name. -/
def assocFind (l : List (String × α)) (k : String) : Option α :=
  match l with
  | [] => none
  | (k1, v) :: rest => if k1 = k then some v else assocFind rest k

/-- The `Dataset` class: named seasons and subseasons, with an abstract
season type `α`. -/
structure Dataset (α : Type) where
  seasons : List (String × α)
  subseasons : List (String × α)

/-- `Dataset.get_seasons(*args)`: with no names, a copy of all seasons;
otherwise each requested name resolved in `seasons`, then `subseasons`,
or an exception naming the first unrecognised name. -/
def Dataset.get_seasons (d : Dataset α) (names : List String) :
    Except Err (List (String × α)) :=
  match names with
  | [] => .ok d.seasons
  | _ => go names
where
  go : List String → Except Err (List (String × α))
  | [] => .ok []
  | n :: ns =>
    match assocFind d.seasons n with
    | some s =>
      match go ns with
      | .error e => .error e
      | .ok rest => .ok ((n, s) :: rest)
    | none =>
      match assocFind d.subseasons n with
      | some s =>
        match go ns with
        | .error e => .error e
        | .ok rest => .ok ((n, s) :: rest)
      | none => .error (.unrecognisedSeason n)

/-- The `DatasetHolder` class. -/
structure DatasetHolder (α : Type) where
  sample_name : String
  datasets : List (String × α)
  current : Option String := none

/-- `DatasetHolder.set_current`: select a stored version or raise an
exception naming the unrecognised version key. -/
def DatasetHolder.set_current (h : DatasetHolder α) (version : String) :
    Except Err (DatasetHolder α) :=
  if (assocFind h.datasets version).isSome then
    .ok { h with current := some version }
  else
    .error (.unrecognisedVersion version)

/-! ### Diffuse flux (`flarestack/utils/neutrino_cosmology.py`)

Astropy units are an external collaborator; a flux is modelled by its
numerical value in GeV^-1 cm^-2 s^-1 sr^-1. -/

/-- `get_diffuse_flux_at_100TeV`: best-fit diffuse flux and spectral
index for the `"Joint"` (6.7e-18 / 3, gamma 2.5) and
`"Northern Tracks"` (1.01e-18, gamma 2.19) fits; any other fit raises an
exception naming it. -/
def get_diffuse_flux_at_100TeV (fit : String) : Except Err (ℚ × ℚ) :=
  if fit = "Joint" then
    .ok (((67 / 10) / 10 ^ 18) / 3, 5 / 2)
  else if fit = "Northern Tracks" then
    .ok ((101 / 100) / 10 ^ 18, 219 / 100)
  else
    .error (.fitNotRecognised fit)

/-- `get_diffuse_flux_at_1GeV`: the 100 TeV flux rescaled by
`(10 ** 5) ** gamma`, same spectral index. Since `gamma` is not an
integer, the Python float power `(10 ** 5) ** gamma` is modelled by an
arbitrary powering function `p`, applied to `gamma` exactly where the
code applies the power. -/
def get_diffuse_flux_at_1GeV (p : ℚ → ℚ) (fit : String) : Except Err (ℚ × ℚ) :=
  match get_diffuse_flux_at_100TeV fit with
  | .error e => .error e
  | .ok (diffuse_flux, diffuse_gamma) =>
    .ok (diffuse_flux * p diffuse_gamma, diffuse_gamma)

/-! ### Column lemmas for the scrambling operations -/

theorem zipWith_map_left_eq {α β γ : Type} {f : α → β → α} {p : α → γ}
    (hf : ∀ a b, p (f a b) = p a) :
    ∀ (l : List α) (r : List β), l.length ≤ r.length →
      (List.zipWith f l r).map p = l.map p := by
  intro l
  induction l with
  | nil => intro r _; simp
  | cons a l ih =>
    intro r hr
    cases r with
    | nil => simp at hr
    | cons b r =>
      simp only [List.zipWith_cons_cons, List.map_cons, hf]
      rw [ih r (by simpa using hr)]

theorem zipWith_map_right_eq {α β : Type} {f : α → β → α} {p : α → β}
    (hf : ∀ a b, p (f a b) = b) :
    ∀ (l : List α) (r : List β), r.length ≤ l.length →
      (List.zipWith f l r).map p = r := by
  intro l
  induction l with
  | nil =>
    intro r hr
    have : r = [] := List.length_eq_zero.mp (Nat.le_zero.mp hr)
    subst this
    simp
  | cons a l ih =>
    intro r hr
    cases r with
    | nil => simp
    | cons b r =>
      simp only [List.zipWith_cons_cons, List.map_cons, hf]
      rw [ih r (by simpa using hr)]

theorem assignRA_map_dec (bg : List BgEvent) (ras : List ℚ)
    (h : bg.length ≤ ras.length) :
    (assignRA bg ras).map (fun b => b.ev.dec) = bg.map (fun b => b.ev.dec) := by
  unfold assignRA
  refine zipWith_map_left_eq ?_ bg ras h
  intro a b
  rfl

theorem assignRA_map_sigma (bg : List BgEvent) (ras : List ℚ)
    (h : bg.length ≤ ras.length) :
    (assignRA bg ras).map (fun b => b.ev.sigma) = bg.map (fun b => b.ev.sigma) := by
  unfold assignRA
  refine zipWith_map_left_eq ?_ bg ras h
  intro a b
  rfl

theorem assignRA_map_logE (bg : List BgEvent) (ras : List ℚ)
    (h : bg.length ≤ ras.length) :
    (assignRA bg ras).map (fun b => b.ev.logE) = bg.map (fun b => b.ev.logE) := by
  unfold assignRA
  refine zipWith_map_left_eq ?_ bg ras h
  intro a b
  rfl

theorem assignRA_map_time (bg : List BgEvent) (ras : List ℚ)
    (h : bg.length ≤ ras.length) :
    (assignRA bg ras).map (fun b => b.ev.time) = bg.map (fun b => b.ev.time) := by
  unfold assignRA
  refine zipWith_map_left_eq ?_ bg ras h
  intro a b
  rfl

theorem assignRA_map_ra (bg : List BgEvent) (ras : List ℚ)
    (h : ras.length ≤ bg.length) :
    (assignRA bg ras).map (fun b => b.ev.ra) = ras := by
  unfold assignRA
  refine zipWith_map_right_eq ?_ bg ras h
  intro a b
  rfl

theorem assignTimes_map_dec (bg : List BgEvent) (ts : List ℚ)
    (h : bg.length ≤ ts.length) :
    (assignTimes bg ts).map (fun b => b.ev.dec) = bg.map (fun b => b.ev.dec) := by
  unfold assignTimes
  refine zipWith_map_left_eq ?_ bg ts h
  intro a b
  rfl

theorem assignTimes_map_sigma (bg : List BgEvent) (ts : List ℚ)
    (h : bg.length ≤ ts.length) :
    (assignTimes bg ts).map (fun b => b.ev.sigma) = bg.map (fun b => b.ev.sigma) := by
  unfold assignTimes
  refine zipWith_map_left_eq ?_ bg ts h
  intro a b
  rfl

theorem assignTimes_map_logE (bg : List BgEvent) (ts : List ℚ)
    (h : bg.length ≤ ts.length) :
    (assignTimes bg ts).map (fun b => b.ev.logE) = bg.map (fun b => b.ev.logE) := by
  unfold assignTimes
  refine zipWith_map_left_eq ?_ bg ts h
  intro a b
  rfl

theorem assignTimes_map_ra (bg : List BgEvent) (ts : List ℚ)
    (h : bg.length ≤ ts.length) :
    (assignTimes bg ts).map (fun b => b.ev.ra) = bg.map (fun b => b.ev.ra) := by
  unfold assignTimes
  refine zipWith_map_left_eq ?_ bg ts h
  intro a b
  rfl

theorem assignTimes_map_time (bg : List BgEvent) (ts : List ℚ)
    (h : ts.length ≤ bg.length) :
    (assignTimes bg ts).map (fun b => b.ev.time) = ts := by
  unfold assignTimes
  refine zipWith_map_right_eq ?_ bg ts h
  intro a b
  rfl

/-! ### Sample data for concrete evaluation -/

/-- A concrete experimental event. -/
def sampleEvent1 : Event :=
  { ra := 1, dec := -1/2, sigma := 1/100, logE := 3, time := 55000 }

/-- A second concrete experimental event. -/
def sampleEvent2 : Event :=
  { ra := 2, dec := 1/3, sigma := 1/50, logE := 4, time := 55500 }

/-- A concrete loaded background model. -/
def sampleBg : List BgEvent :=
  [{ ev := sampleEvent1, weight := 1 }, { ev := sampleEvent2, weight := 1 }]

/-- A concrete season with its background model loaded. -/
def sampleSeason : Season :=
  { season_name := "IC86-2011", sample_name := "ps_tracks",
    exp_data := [sampleEvent1, sampleEvent2],
    loaded_background := some sampleBg }

/-! ### Claim theorems -/

/-- C1: for a season whose background model is loaded,
`Season.pseudo_background` keeps the declination, angular-error and
energy-proxy columns unchanged (hence their multisets equal those of the
loaded background), permutes the time column, and replaces right
ascension with exactly the fresh uniform draws, each in `[0, tau)`
(`tau` standing for `2 * np.pi`). -/
theorem pseudo_background_scramble (tau : ℚ) (s : Season) (bg : List BgEvent)
    (g : Nat) (htau : 0 < tau) (hbg : s.loaded_background = some bg) :
    (Season.pseudo_background tau g s).1.map Event.dec
        = bg.map (fun b => b.ev.dec) ∧
    (Season.pseudo_background tau g s).1.map Event.sigma
        = bg.map (fun b => b.ev.sigma) ∧
    (Season.pseudo_background tau g s).1.map Event.logE
        = bg.map (fun b => b.ev.logE) ∧
    Multiset.ofList ((Season.pseudo_background tau g s).1.map Event.dec)
        = Multiset.ofList (bg.map (fun b => b.ev.dec)) ∧
    Multiset.ofList ((Season.pseudo_background tau g s).1.map Event.logE)
        = Multiset.ofList (bg.map (fun b => b.ev.logE)) ∧
    ((Season.pseudo_background tau g s).1.map Event.time).Perm
        (bg.map (fun b => b.ev.time)) ∧
    (Season.pseudo_background tau g s).1.map Event.ra
        = (uniformList 0 tau g bg.length).1 ∧
    ∀ r ∈ (Season.pseudo_background tau g s).1.map Event.ra,
        0 ≤ r ∧ r < tau := by
  have hout : (Season.pseudo_background tau g s).1
      = (assignTimes (assignRA bg (uniformList 0 tau g bg.length).1)
          (shuffle (uniformList 0 tau g bg.length).2
            ((assignRA bg (uniformList 0 tau g bg.length).1).map
              (fun b => b.ev.time)))).map BgEvent.ev := by
    simp [Season.pseudo_background, hbg]
  set ras := (uniformList 0 tau g bg.length).1 with hras_def
  set d1 := assignRA bg ras with hd1_def
  set ts := shuffle (uniformList 0 tau g bg.length).2
      (d1.map (fun b => b.ev.time)) with hts_def
  have hras : ras.length = bg.length := uniformList_length 0 tau g bg.length
  have hd1 : d1.length = bg.length := by
    rw [hd1_def]
    unfold assignRA
    rw [List.length_zipWith, hras, min_self]
  have hts : ts.length = bg.length := by
    rw [hts_def, (shuffle_perm _ _).length_eq, List.length_map, hd1]
  have hcomp_dec : Event.dec ∘ BgEvent.ev = fun (b : BgEvent) => b.ev.dec := rfl
  have hcomp_sigma : Event.sigma ∘ BgEvent.ev = fun (b : BgEvent) => b.ev.sigma := rfl
  have hcomp_logE : Event.logE ∘ BgEvent.ev = fun (b : BgEvent) => b.ev.logE := rfl
  have hcomp_time : Event.time ∘ BgEvent.ev = fun (b : BgEvent) => b.ev.time := rfl
  have hcomp_ra : Event.ra ∘ BgEvent.ev = fun (b : BgEvent) => b.ev.ra := rfl
  have hdec : (Season.pseudo_background tau g s).1.map Event.dec
      = bg.map (fun b => b.ev.dec) := by
    rw [hout, List.map_map, hcomp_dec,
      assignTimes_map_dec d1 ts (by rw [hd1, hts]),
      assignRA_map_dec bg ras hras.ge]
  have hsigma : (Season.pseudo_background tau g s).1.map Event.sigma
      = bg.map (fun b => b.ev.sigma) := by
    rw [hout, List.map_map, hcomp_sigma,
      assignTimes_map_sigma d1 ts (by rw [hd1, hts]),
      assignRA_map_sigma bg ras hras.ge]
  have hlogE : (Season.pseudo_background tau g s).1.map Event.logE
      = bg.map (fun b => b.ev.logE) := by
    rw [hout, List.map_map, hcomp_logE,
      assignTimes_map_logE d1 ts (by rw [hd1, hts]),
      assignRA_map_logE bg ras hras.ge]
  have htime : ((Season.pseudo_background tau g s).1.map Event.time).Perm
      (bg.map (fun b => b.ev.time)) := by
    rw [hout, List.map_map, hcomp_time,
      assignTimes_map_time d1 ts (by rw [hd1, hts])]
    have h1 : ts.Perm (d1.map (fun b => b.ev.time)) := by
      rw [hts_def]; exact shuffle_perm _ _
    have h2 : d1.map (fun b => b.ev.time) = bg.map (fun b => b.ev.time) := by
      rw [hd1_def]; exact assignRA_map_time bg ras hras.ge
    exact h2 ▸ h1
  have hra : (Season.pseudo_background tau g s).1.map Event.ra = ras := by
    rw [hout, List.map_map, hcomp_ra,
      assignTimes_map_ra d1 ts (by rw [hd1, hts]),
      assignRA_map_ra bg ras hras.le]
  refine ⟨hdec, hsigma, hlogE, by rw [hdec], by rw [hlogE], htime, hra, ?_⟩
  intro r hr
  rw [hra] at hr
  exact uniformList_mem_range 0 tau htau g bg.length r hr

/-- C1 witness: the scrambling theorem evaluated on a concrete two-event
season, with `tau = 7` and seed `5`. -/
theorem pseudo_background_scramble_witness :
    (0 : ℚ) < 7 ∧ sampleSeason.loaded_background = some sampleBg ∧
    ((Season.pseudo_background 7 5 sampleSeason).1.map Event.dec
        = sampleBg.map (fun b => b.ev.dec) ∧
    (Season.pseudo_background 7 5 sampleSeason).1.map Event.sigma
        = sampleBg.map (fun b => b.ev.sigma) ∧
    (Season.pseudo_background 7 5 sampleSeason).1.map Event.logE
        = sampleBg.map (fun b => b.ev.logE) ∧
    Multiset.ofList ((Season.pseudo_background 7 5 sampleSeason).1.map Event.dec)
        = Multiset.ofList (sampleBg.map (fun b => b.ev.dec)) ∧
    Multiset.ofList ((Season.pseudo_background 7 5 sampleSeason).1.map Event.logE)
        = Multiset.ofList (sampleBg.map (fun b => b.ev.logE)) ∧
    ((Season.pseudo_background 7 5 sampleSeason).1.map Event.time).Perm
        (sampleBg.map (fun b => b.ev.time)) ∧
    (Season.pseudo_background 7 5 sampleSeason).1.map Event.ra
        = (uniformList 0 7 5 sampleBg.length).1 ∧
    ∀ r ∈ (Season.pseudo_background 7 5 sampleSeason).1.map Event.ra,
        0 ≤ r ∧ r < 7) :=
  ⟨by norm_num, rfl,
    pseudo_background_scramble 7 sampleSeason sampleBg 5 (by norm_num) rfl⟩

/-- C4: scrambling is deterministic given an explicit seed. Calling
`Season.pseudo_background` again, on the season state the first call
returned and with the same seed, reproduces the identical
pseudo-background sample (and season state): exact trial replay. -/
theorem pseudo_background_deterministic (tau : ℚ) (g : Nat) (s : Season) :
    Season.pseudo_background tau g (Season.pseudo_background tau g s).2
      = Season.pseudo_background tau g s := by
  match h : s.loaded_background with
  | some bg =>
    have h2 : (Season.pseudo_background tau g s).2 = s := by
      simp [Season.pseudo_background, h]
    rw [h2]
  | none =>
    have h2 : (Season.pseudo_background tau g s).2 = s.load_background_model := by
      simp [Season.pseudo_background, h]
    rw [h2]
    simp [Season.pseudo_background, Season.load_background_model, h]

/-- C9: `Season.pseudo_background` operates on a copy and never mutates
the cached background model: when it is loaded, the season comes back
unchanged, with `loaded_background` holding exactly the same events. -/
theorem pseudo_background_no_mutation (tau : ℚ) (g : Nat) (s : Season)
    (bg : List BgEvent) (hbg : s.loaded_background = some bg) :
    (Season.pseudo_background tau g s).2 = s ∧
    (Season.pseudo_background tau g s).2.loaded_background = some bg := by
  have h2 : (Season.pseudo_background tau g s).2 = s := by
    simp [Season.pseudo_background, hbg]
  exact ⟨h2, by rw [h2, hbg]⟩

/-- C9 witness: the no-mutation theorem on the concrete season, `tau = 7`,
seed `5`. -/
theorem pseudo_background_no_mutation_witness :
    sampleSeason.loaded_background = some sampleBg ∧
    ((Season.pseudo_background 7 5 sampleSeason).2 = sampleSeason ∧
    (Season.pseudo_background 7 5 sampleSeason).2.loaded_background
      = some sampleBg) :=
  ⟨rfl, pseudo_background_no_mutation 7 5 sampleSeason sampleBg rfl⟩

/-- C5: cached models are built lazily at most once and reused. A cached
time PDF is returned as-is by `get_time_pdf`; after a first successful
`get_time_pdf` the season is a fixed point (no rebuild on later calls);
`pseudo_background` leaves a season whose background model is already
loaded entirely unchanged (no refit across trials); and
`clean_season_cache` resets the cached time PDF. -/
theorem season_lazy_cache (s s2 : Season) (p q : TimePDF)
    (bg : List BgEvent) (tau : ℚ) (g : Nat) :
    (s.time_pdf = some p → s.get_time_pdf = .ok (p, s)) ∧
    (s.get_time_pdf = .ok (q, s2) → s2.get_time_pdf = .ok (q, s2)) ∧
    (s.loaded_background = some bg →
      (Season.pseudo_background tau g s).2 = s) ∧
    s.clean_season_cache.time_pdf = none := by
  refine ⟨?_, ?_, ?_, rfl⟩
  · intro h
    simp [Season.get_time_pdf, h]
  · intro h
    match hc : s.time_pdf with
    | some p0 =>
      rw [Season.get_time_pdf, hc] at h
      obtain ⟨h1, h2⟩ := Prod.mk.injEq .. ▸ Except.ok.inj h
      subst h1
      subst h2
      rw [Season.get_time_pdf, hc]
    | none =>
      rw [Season.get_time_pdf, hc] at h
      match hb : s.build_time_pdf with
      | .error e => rw [hb] at h; exact absurd h (by simp)
      | .ok p0 =>
        rw [hb] at h
        obtain ⟨h1, h2⟩ := Prod.mk.injEq .. ▸ Except.ok.inj h
        subst h1
        subst h2
        rw [Season.get_time_pdf]
  · intro h
    simp [Season.pseudo_background, h]

/-- C5 witness: the caching theorem on the concrete season carrying a
cached `fixedEndBox` time PDF and a loaded background, `tau = 7`,
seed `5`. -/
theorem season_lazy_cache_witness :
    { sampleSeason with time_pdf := some TimePDF.fixedEndBox }.time_pdf
        = some TimePDF.fixedEndBox ∧
    { sampleSeason with time_pdf := some TimePDF.fixedEndBox }.get_time_pdf
        = .ok (TimePDF.fixedEndBox,
            { sampleSeason with time_pdf := some TimePDF.fixedEndBox }) ∧
    { sampleSeason with
        time_pdf := some TimePDF.fixedEndBox }.loaded_background
        = some sampleBg ∧
    (Season.pseudo_background 7 5
        { sampleSeason with time_pdf := some TimePDF.fixedEndBox }).2
        = { sampleSeason with time_pdf := some TimePDF.fixedEndBox } ∧
    { sampleSeason with
        time_pdf := some TimePDF.fixedEndBox }.clean_season_cache.time_pdf
        = none := by
  have h := season_lazy_cache
    { sampleSeason with time_pdf := some TimePDF.fixedEndBox }
    { sampleSeason with time_pdf := some TimePDF.fixedEndBox }
    TimePDF.fixedEndBox TimePDF.fixedEndBox sampleBg 7 5
  exact ⟨rfl, h.1 rfl, rfl, h.2.2.1 rfl, h.2.2.2⟩

/-- On success, the `get_seasons` loop resolves every requested name,
by exact match in `seasons` first and `subseasons` second. -/
theorem get_seasons_go_mem (α : Type) (d : Dataset α) :
    ∀ (names : List String) (res : List (String × α)),
      Dataset.get_seasons.go d names = .ok res →
      ∀ n ∈ names, ∃ v, (n, v) ∈ res ∧
        (assocFind d.seasons n = some v ∨
          (assocFind d.seasons n = none ∧
            assocFind d.subseasons n = some v)) := by
  intro names
  induction names with
  | nil => intro res _ n hn; simp at hn
  | cons n0 ns ih =>
    intro res hres m hm
    rw [Dataset.get_seasons.go] at hres
    match h1 : assocFind d.seasons n0 with
    | some v =>
      rw [h1] at hres
      match h2 : Dataset.get_seasons.go d ns with
      | .error e => rw [h2] at hres; exact absurd hres (by simp)
      | .ok rest =>
        rw [h2] at hres
        obtain rfl : (n0, v) :: rest = res := Except.ok.inj hres
        rcases List.mem_cons.mp hm with rfl | hm
        · exact ⟨v, List.mem_cons_self _ _, Or.inl h1⟩
        · obtain ⟨w, hw, hfind⟩ := ih rest h2 m hm
          exact ⟨w, List.mem_cons_of_mem _ hw, hfind⟩
    | none =>
      rw [h1] at hres
      match h1b : assocFind d.subseasons n0 with
      | some v =>
        rw [h1b] at hres
        match h2 : Dataset.get_seasons.go d ns with
        | .error e => rw [h2] at hres; exact absurd hres (by simp)
        | .ok rest =>
          rw [h2] at hres
          obtain rfl : (n0, v) :: rest = res := Except.ok.inj hres
          rcases List.mem_cons.mp hm with rfl | hm
          · exact ⟨v, List.mem_cons_self _ _, Or.inr ⟨h1, h1b⟩⟩
          · obtain ⟨w, hw, hfind⟩ := ih rest h2 m hm
            exact ⟨w, List.mem_cons_of_mem _ hw, hfind⟩
      | none =>
        rw [h1b] at hres
        exact absurd hres (by simp)

/-- If some requested name matches neither `seasons` nor `subseasons`,
the `get_seasons` loop fails with an exception naming an unmatched
name. -/
theorem get_seasons_go_err (α : Type) (d : Dataset α) :
    ∀ (names : List String),
      (∃ n ∈ names, assocFind d.seasons n = none ∧
        assocFind d.subseasons n = none) →
      ∃ m, Dataset.get_seasons.go d names = .error (.unrecognisedSeason m) ∧
        assocFind d.seasons m = none ∧ assocFind d.subseasons m = none := by
  intro names
  induction names with
  | nil => intro h; obtain ⟨n, hn, _⟩ := h; simp at hn
  | cons n0 ns ih =>
    intro h
    rw [Dataset.get_seasons.go]
    match h1 : assocFind d.seasons n0 with
    | some v =>
      have hns : ∃ n ∈ ns, assocFind d.seasons n = none ∧
          assocFind d.subseasons n = none := by
        obtain ⟨n, hn, hfind⟩ := h
        rcases List.mem_cons.mp hn with rfl | hn
        · rw [h1] at hfind; exact absurd hfind.1 (by simp)
        · exact ⟨n, hn, hfind⟩
      obtain ⟨m, hm, hmfind⟩ := ih hns
      rw [hm]
      exact ⟨m, rfl, hmfind⟩
    | none =>
      match h1b : assocFind d.subseasons n0 with
      | some v =>
        have hns : ∃ n ∈ ns, assocFind d.seasons n = none ∧
            assocFind d.subseasons n = none := by
          obtain ⟨n, hn, hfind⟩ := h
          rcases List.mem_cons.mp hn with rfl | hn
          · rw [h1b] at hfind; exact absurd hfind.2 (by simp)
          · exact ⟨n, hn, hfind⟩
        obtain ⟨m, hm, hmfind⟩ := ih hns
        rw [hm]
        exact ⟨m, rfl, hmfind⟩
      | none =>
        exact ⟨n0, rfl, h1, h1b⟩

/-- C3: `Dataset.get_seasons` with zero names returns all seasons; on
success, every requested name maps to the season found by exact name
match (seasons first, then subseasons); if any requested name matches no
stored season or subseason, it raises an exception naming an offending
name. -/
theorem get_seasons_spec (α : Type) (d : Dataset α) :
    d.get_seasons [] = .ok d.seasons ∧
    (∀ (names : List String) (res : List (String × α)),
      d.get_seasons names = .ok res →
      ∀ n ∈ names, ∃ v, (n, v) ∈ res ∧
        (assocFind d.seasons n = some v ∨
          (assocFind d.seasons n = none ∧
            assocFind d.subseasons n = some v))) ∧
    (∀ names : List String,
      (∃ n ∈ names, assocFind d.seasons n = none ∧
        assocFind d.subseasons n = none) →
      ∃ m, d.get_seasons names = .error (.unrecognisedSeason m) ∧
        assocFind d.seasons m = none ∧ assocFind d.subseasons m = none) := by
  refine ⟨rfl, ?_, ?_⟩
  · intro names res hres n hn
    match names with
    | [] => simp at hn
    | n0 :: ns => exact get_seasons_go_mem α d (n0 :: ns) res hres n hn
  · intro names hex
    match names with
    | [] => obtain ⟨n, hn, _⟩ := hex; simp at hn
    | n0 :: ns => exact get_seasons_go_err α d (n0 :: ns) hex

/-- A concrete dataset over season payloads `ℕ`. -/
def sampleDataset : Dataset Nat :=
  { seasons := [("IC86-2011", 1)], subseasons := [("IC86-2011a", 2)] }

/-- C3 witness: the lookup theorem on the concrete dataset, for the empty
request, one resolvable name and one unknown name. -/
theorem get_seasons_spec_witness :
    sampleDataset.get_seasons [] = .ok sampleDataset.seasons ∧
    sampleDataset.get_seasons ["IC86-2011"] = .ok [("IC86-2011", 1)] ∧
    (∃ v, ("IC86-2011", v) ∈ [("IC86-2011", (1 : Nat))] ∧
      (assocFind sampleDataset.seasons "IC86-2011" = some v ∨
        (assocFind sampleDataset.seasons "IC86-2011" = none ∧
          assocFind sampleDataset.subseasons "IC86-2011" = some v))) ∧
    (∃ m, sampleDataset.get_seasons ["IC40"]
        = .error (.unrecognisedSeason m) ∧
      assocFind sampleDataset.seasons m = none ∧
      assocFind sampleDataset.subseasons m = none) := by
  refine ⟨(get_seasons_spec Nat sampleDataset).1, rfl, ?_, ?_⟩
  · exact (get_seasons_spec Nat sampleDataset).2.1 ["IC86-2011"]
      [("IC86-2011", 1)] rfl "IC86-2011" (by decide)
  · exact (get_seasons_spec Nat sampleDataset).2.2 ["IC40"]
      ⟨"IC40", by decide, by decide, by decide⟩

/-- C2 counterexample: selecting `OnOffList` as the background time PDF
does NOT raise: `Season.build_time_pdf` accepts it, because `OnOffList`
is in the code's `compatible_time_pdfs` list. -/
theorem build_time_pdf_accepts_onofflist :
    { season_name := "s", sample_name := "x", exp_data := [],
      t_pdf_dict_override := some { time_pdf_name := "on_off_list" }
      : Season }.build_time_pdf = .ok TimePDF.onOffList := rfl

/-- C2 (amended): `Season.build_time_pdf` raises an error (the code's
`ValueError`, not a `ConfigurationError`) whenever the created time PDF
is not one of `FixedEndBox`, `FixedRefBox`, `OnOffList`; in particular
`Steady` is rejected, while `OnOffList` is accepted, and every accepted
PDF is in the compatible list. -/
theorem build_time_pdf_compatibility (s : Season) (d : TimePdfDict)
    (hd : s.build_time_pdf_dict = .ok d) :
    (d.time_pdf_name = "steady" →
      s.build_time_pdf = .error .incompatibleTimePdf) ∧
    (d.time_pdf_name = "on_off_list" →
      s.build_time_pdf = .ok TimePDF.onOffList) ∧
    (∀ p, s.build_time_pdf = .ok p → p.isCompatibleBackground = true) := by
  refine ⟨?_, ?_, ?_⟩
  · intro hn
    have hc : TimePDF.create d = .ok .steady := by
      simp only [TimePDF.create, hn]
    simp [Season.build_time_pdf, hd, hc, TimePDF.isCompatibleBackground]
  · intro hn
    have hc : TimePDF.create d = .ok .onOffList := by
      simp only [TimePDF.create, hn]
    simp [Season.build_time_pdf, hd, hc, TimePDF.isCompatibleBackground]
  · intro p hp
    simp only [Season.build_time_pdf, hd] at hp
    match hc : TimePDF.create d with
    | .error e => simp [hc] at hp
    | .ok p0 =>
      simp only [hc] at hp
      by_cases hcompat : p0.isCompatibleBackground
      · rw [if_pos hcompat] at hp
        obtain rfl : p0 = p := Except.ok.inj hp
        exact hcompat
      · rw [if_neg hcompat] at hp
        exact absurd hp (by simp)

/-- C2 witness: the amended theorem on two concrete seasons, one
selecting `steady` (rejected), one selecting `on_off_list` (accepted). -/
theorem build_time_pdf_compatibility_witness :
    ({ season_name := "s", sample_name := "x", exp_data := [],
        t_pdf_dict_override := some { time_pdf_name := "steady" }
        : Season }.build_time_pdf_dict
      = .ok { time_pdf_name := "steady" }) ∧
    ({ season_name := "s", sample_name := "x", exp_data := [],
        t_pdf_dict_override := some { time_pdf_name := "steady" }
        : Season }.build_time_pdf = .error .incompatibleTimePdf) ∧
    ({ season_name := "s", sample_name := "x", exp_data := [],
        t_pdf_dict_override := some { time_pdf_name := "on_off_list" }
        : Season }.build_time_pdf = .ok TimePDF.onOffList) :=
  ⟨rfl,
    (build_time_pdf_compatibility
      { season_name := "s", sample_name := "x", exp_data := [],
        t_pdf_dict_override := some { time_pdf_name := "steady" } }
      { time_pdf_name := "steady" } rfl).1 rfl,
    (build_time_pdf_compatibility
      { season_name := "s", sample_name := "x", exp_data := [],
        t_pdf_dict_override := some { time_pdf_name := "on_off_list" } }
      { time_pdf_name := "on_off_list" } rfl).2.1 rfl⟩

/-- C6: the injection strategy follows the season capability: a season
with MC always constructs an `MCInjector`, a season without MC always
constructs an `EffectiveAreaInjector`, for the same catalogue. -/
theorem make_injector_strategy (C : Type) (sMC : SeasonWithMC)
    (sNoMC : SeasonWithoutMC) (sources : C) :
    sMC.make_injector sources = Injector.mcInjector sMC.toSeason sources ∧
    (sMC.make_injector sources).isMC = true ∧
    sNoMC.make_injector sources
      = Injector.effectiveAreaInjector sNoMC.toSeason sources ∧
    (sNoMC.make_injector sources).isMC = false :=
  ⟨rfl, rfl, rfl, rfl⟩

/-- C7: unrecognised option values fail fast with an error naming the
offending key: `DatasetHolder.set_current` on an unknown version, and
`get_diffuse_flux_at_100TeV` on a fit other than `"Joint"` and
`"Northern Tracks"` (the returned error carries no updated state, so
state is unchanged). -/
theorem unrecognised_option_fails (α : Type) (h : DatasetHolder α)
    (version fit : String)
    (hv : assocFind h.datasets version = none)
    (hf1 : fit ≠ "Joint") (hf2 : fit ≠ "Northern Tracks") :
    h.set_current version = .error (.unrecognisedVersion version) ∧
    get_diffuse_flux_at_100TeV fit = .error (.fitNotRecognised fit) := by
  constructor
  · simp [DatasetHolder.set_current, hv]
  · simp [get_diffuse_flux_at_100TeV, hf1, hf2]

/-- C7 witness: an empty holder with version `"v002"` and fit
`"Global"`. -/
theorem unrecognised_option_fails_witness :
    assocFind ({ sample_name := "ps_tracks", datasets := []
        : DatasetHolder Nat }).datasets "v002" = none ∧
    "Global" ≠ "Joint" ∧ "Global" ≠ "Northern Tracks" ∧
    (({ sample_name := "ps_tracks", datasets := []
        : DatasetHolder Nat }).set_current "v002"
      = .error (.unrecognisedVersion "v002") ∧
    get_diffuse_flux_at_100TeV "Global"
      = .error (.fitNotRecognised "Global")) :=
  ⟨rfl, by decide, by decide,
    unrecognised_option_fails Nat
      { sample_name := "ps_tracks", datasets := [] } "v002" "Global"
      rfl (by decide) (by decide)⟩

/-- C8: the default `build_time_pdf_dict` names a `fixed_end_box` whose
start is the minimum and whose end is the maximum event time of the
experimental table, so every arrival time lies within `[start, end]`. -/
theorem build_time_pdf_dict_bounds (s : Season) (d : TimePdfDict)
    (hov : s.t_pdf_dict_override = none)
    (hd : s.build_time_pdf_dict = .ok d) :
    d.time_pdf_name = "fixed_end_box" ∧
    ∃ t0 t1, d.start_time_mjd = some t0 ∧ d.end_time_mjd = some t1 ∧
      pyMin (s.exp_data.map Event.time) = some t0 ∧
      pyMax (s.exp_data.map Event.time) = some t1 ∧
      t0 ∈ s.exp_data.map Event.time ∧ t1 ∈ s.exp_data.map Event.time ∧
      ∀ e ∈ s.exp_data, t0 ≤ e.time ∧ e.time ≤ t1 := by
  rw [Season.build_time_pdf_dict, hov] at hd
  match hexp : s.exp_data with
  | [] =>
    rw [hexp] at hd
    exact absurd hd (by simp [pyMin, pyMax])
  | x :: xs =>
    rw [hexp] at hd
    simp only [List.map_cons, pyMin, pyMax] at hd
    obtain rfl := Except.ok.inj hd
    refine ⟨rfl, (xs.map Event.time).foldl min x.time,
      (xs.map Event.time).foldl max x.time, rfl, rfl, ?_, ?_, ?_, ?_, ?_⟩
    · simp [pyMin]
    · simp [pyMax]
    · rw [List.map_cons]
      rcases foldl_min_mem (xs.map Event.time) x.time with h | h
      · rw [h]; exact List.mem_cons_self _ _
      · exact List.mem_cons_of_mem _ h
    · rw [List.map_cons]
      rcases foldl_max_mem (xs.map Event.time) x.time with h | h
      · rw [h]; exact List.mem_cons_self _ _
      · exact List.mem_cons_of_mem _ h
    · intro e he
      rcases List.mem_cons.mp he with rfl | he
      · exact ⟨foldl_min_le_init _ _, foldl_max_init_le _ _⟩
      · exact ⟨foldl_min_le_mem _ _ e.time (List.mem_map_of_mem Event.time he),
          foldl_max_mem_le _ _ e.time (List.mem_map_of_mem Event.time he)⟩

/-- C8 witness: the livetime-bounds theorem on the concrete two-event
season, whose dictionary spans `[55000, 55500]`. -/
theorem build_time_pdf_dict_bounds_witness :
    sampleSeason.t_pdf_dict_override = none ∧
    sampleSeason.build_time_pdf_dict
      = .ok { time_pdf_name := "fixed_end_box",
              start_time_mjd := some 55000, end_time_mjd := some 55500 } ∧
    ({ time_pdf_name := "fixed_end_box",
       start_time_mjd := some (55000 : ℚ), end_time_mjd := some 55500
       : TimePdfDict }.time_pdf_name = "fixed_end_box" ∧
    ∃ t0 t1,
      ({ time_pdf_name := "fixed_end_box",
         start_time_mjd := some (55000 : ℚ), end_time_mjd := some 55500
         : TimePdfDict }).start_time_mjd = some t0 ∧
      ({ time_pdf_name := "fixed_end_box",
         start_time_mjd := some (55000 : ℚ), end_time_mjd := some 55500
         : TimePdfDict }).end_time_mjd = some t1 ∧
      pyMin (sampleSeason.exp_data.map Event.time) = some t0 ∧
      pyMax (sampleSeason.exp_data.map Event.time) = some t1 ∧
      t0 ∈ sampleSeason.exp_data.map Event.time ∧
      t1 ∈ sampleSeason.exp_data.map Event.time ∧
      ∀ e ∈ sampleSeason.exp_data, t0 ≤ e.time ∧ e.time ≤ t1) :=
  ⟨rfl, rfl,
    build_time_pdf_dict_bounds sampleSeason
      { time_pdf_name := "fixed_end_box",
        start_time_mjd := some 55000, end_time_mjd := some 55500 }
      rfl rfl⟩

/-- C10: `get_diffuse_flux_at_1GeV` returns exactly the flux of
`get_diffuse_flux_at_100TeV` multiplied by the power `(10 ** 5) **
gamma` — modelled by the arbitrary powering function `p` applied at
`gamma` — paired with the identical spectral index, for every fit the
functions accept. -/
theorem diffuse_flux_1GeV_rescale (p : ℚ → ℚ) (fit : String) (f γ : ℚ)
    (h : get_diffuse_flux_at_100TeV fit = .ok (f, γ)) :
    get_diffuse_flux_at_1GeV p fit = .ok (f * p γ, γ) := by
  simp [get_diffuse_flux_at_1GeV, h]

/-- C10 witness: the rescaling theorem at the `"Joint"` fit with the
identity as powering function. -/
theorem diffuse_flux_1GeV_rescale_witness :
    get_diffuse_flux_at_100TeV "Joint" = .ok (67 / 10 / 10 ^ 18 / 3, 5 / 2) ∧
    get_diffuse_flux_at_1GeV (fun x => x) "Joint"
      = .ok (67 / 10 / 10 ^ 18 / 3 * (5 / 2 : ℚ), 5 / 2) :=
  ⟨rfl, diffuse_flux_1GeV_rescale (fun x => x) "Joint"
    (67 / 10 / 10 ^ 18 / 3) (5 / 2) rfl⟩

end Flarestack
